import Mathlib

/-!
Verification of the per-thread event-loop facade in src/src/Loop.h
(uWebSockets Loop). The definitions below are a shallow embedding of the
facade: pure functions model the static callbacks and member functions,
thread-local state is passed explicitly, and reactor side effects are
recorded as explicit event values. The container types live in LoopData.h,
which is not part of the sources here; those containers are modelled from
the specification (MPSC FIFO queue, insertion-ordered key-unique maps),
as marked on each definition.
-/

namespace uWS

/-- A deferred callback, modelled by an observable identifier together with
the list of callbacks that it itself submits via defer while it runs
(in submission order). A callback that defers nothing has an empty list. -/
inductive Cb : Type where
  | mk : Nat → List Cb → Cb
deriving Inhabited

/-- The observable identifier of a callback. -/
def Cb.id : Cb → Nat
  | .mk i _ => i

/-- The callbacks a callback submits via defer while running. -/
def Cb.defers : Cb → List Cb
  | .mk _ ds => ds

mutual

/-- Total number of callback nodes in a callback tree. -/
def Cb.size : Cb → Nat
  | .mk _ ds => 1 + Cb.sizeList ds

/-- Total number of callback nodes in a list of callback trees. -/
def Cb.sizeList : List Cb → Nat
  | [] => 0
  | c :: cs => Cb.size c + Cb.sizeList cs

end

mutual

/-- How many callbacks carrying identifier i occur in a callback tree. -/
def Cb.countId (i : Nat) : Cb → Nat
  | .mk j ds => (if j = i then 1 else 0) + Cb.countIdList i ds

/-- How many callbacks carrying identifier i occur in a list of trees. -/
def Cb.countIdList (i : Nat) : List Cb → Nat
  | [] => 0
  | c :: cs => Cb.countId i c + Cb.countIdList i cs

end

theorem Cb.sizeList_append (xs ys : List Cb) :
    Cb.sizeList (xs ++ ys) = Cb.sizeList xs + Cb.sizeList ys := by
  induction xs with
  | nil => simp [Cb.sizeList]
  | cons c cs ih => simp [Cb.sizeList, ih]; omega

theorem Cb.countIdList_append (i : Nat) (xs ys : List Cb) :
    Cb.countIdList i (xs ++ ys) = Cb.countIdList i xs + Cb.countIdList i ys := by
  induction xs with
  | nil => simp [Cb.countIdList]
  | cons c cs ih => simp [Cb.countIdList, ih]; omega

/-- The wakeup callback of Loop.h: drain the defer queue by repeatedly
popping the front callback and invoking it until the queue reports empty.
Invoking a callback appends the callbacks it defers to the back of the
queue (see Loop.defer). The result is the sequence of identifiers of the
callbacks invoked, in invocation order. -/
def wakeupCb : List Cb → List Nat
  | [] => []
  | Cb.mk i ds :: rest => i :: wakeupCb (rest ++ ds)
termination_by q => Cb.sizeList q
decreasing_by
  simp only [Cb.sizeList_append, Cb.sizeList, Cb.size]
  omega

theorem count_wakeupCb (i : Nat) (q : List Cb) :
    List.count i (wakeupCb q) = Cb.countIdList i q := by
  induction q using wakeupCb.induct with
  | case1 => simp [wakeupCb, Cb.countIdList]
  | case2 j ds rest ih =>
    rw [wakeupCb, List.count_cons, ih, Cb.countIdList_append]
    simp only [Cb.countIdList, Cb.countId]
    by_cases h : j = i <;> simp [h] <;> omega

/-- One entry step of the queue drain loop in wakeupCb: popping a nonempty
queue invokes the front callback, whose own deferred callbacks are appended
to the back of the queue before draining continues. -/
theorem wakeupCb_step (c : Cb) (rest : List Cb) :
    wakeupCb (c :: rest) = Cb.id c :: wakeupCb (rest ++ Cb.defers c) := by
  cases c with
  | mk i ds => rw [wakeupCb]; simp [Cb.id, Cb.defers]

/-- Modelled from the spec: LoopData (declared in LoopData.h, not among the
sources) holds the MPSC defer queue (FIFO, modelled as a list popped at the
front and pushed at the back), the two insertion-ordered key-unique handler
maps (modelled as association lists of key and handler identifiers), the
nullable corked-socket reference, the date-timer handle and the noMark
flag. Handlers are modelled by observable identifiers, like callbacks. -/
structure LoopData : Type where
  deferQueue : List Cb
  preHandlers : List (Nat × Nat)
  postHandlers : List (Nat × Nat)
  corkedSocket : Option Nat
  dateTimerOpen : Bool
  noMark : Bool

/-- Modelled from the spec: a default-constructed LoopData, as produced by
the placement construction in Loop.init: empty queue, empty handler maps,
no corked socket, silent mode off. -/
def LoopData.default : LoopData :=
  { deferQueue := []
  , preHandlers := []
  , postHandlers := []
  , corkedSocket := none
  , dateTimerOpen := false
  , noMark := false }

/-- The Loop handle: the reactor loop pointer cast to Loop in the source.
It records the hint passed to us_create_loop (the adopted native loop
pointer, or none for a natively created loop) and the LoopData extension
block attached to the reactor loop. -/
structure Loop : Type where
  nativeHint : Option Nat
  data : LoopData

/-- Calls into the underlying reactor that the facade performs, recorded
as explicit events. -/
inductive ReactorCall : Type where
  | usLoopRun : Loop → ReactorCall
  | usWakeupLoop : ReactorCall
  | usLoopIntegrate : Loop → ReactorCall

/-- Loop.create: us_create_loop with the given hint installs the three
lifecycle callbacks and the LoopData extension block, init default
constructs LoopData in place, and the 1000 ms repeating date timer is
created, leaving the timer open. -/
def Loop.create (hint : Option Nat) : Loop :=
  { nativeHint := hint
  , data := { LoopData.default with dateTimerOpen := true } }

/-- Loop.defer: push the callback at the back of the defer queue, then
signal us_wakeup_loop on the reactor. -/
def Loop.defer (l : Loop) (cb : Cb) : Loop × ReactorCall :=
  ({ l with data := { l.data with deferQueue := l.data.deferQueue ++ [cb] } }
  , ReactorCall.usWakeupLoop)

/-- Submit a whole sequence of callbacks through Loop.defer, in order. -/
def Loop.deferAll (l : Loop) (cs : List Cb) : Loop :=
  cs.foldl (fun l c => (Loop.defer l c).1) l

theorem deferAll_queue (l : Loop) (cs : List Cb) :
    (Loop.deferAll l cs).data.deferQueue = l.data.deferQueue ++ cs := by
  induction cs generalizing l with
  | nil => simp [Loop.deferAll]
  | cons c rest ih =>
    simp [Loop.deferAll, Loop.defer] at ih ⊢
    rw [ih]
    simp

/-- Modelled from the spec: the emplace operation of the handler maps.
The maps are ordered mappings with unique keys whose iteration order is
insertion order and where registering under an existing key replaces the
prior entry, keeping its position. -/
def mapEmplace : List (Nat × Nat) → Nat → Nat → List (Nat × Nat)
  | [], k, v => [(k, v)]
  | p :: rest, k, v =>
      if p.1 = k then (k, v) :: rest else p :: mapEmplace rest k v

/-- Modelled from the spec: the erase operation of the handler maps,
removal by key. -/
def mapErase (m : List (Nat × Nat)) (k : Nat) : List (Nat × Nat) :=
  m.filter (fun p => p.1 ≠ k)

/-- Loop.addPreHandler: emplace the handler in preHandlers under key. -/
def Loop.addPreHandler (l : Loop) (key handler : Nat) : Loop :=
  { l with data := { l.data with preHandlers := mapEmplace l.data.preHandlers key handler } }

/-- Loop.removePreHandler: erase the preHandlers entry under key. -/
def Loop.removePreHandler (l : Loop) (key : Nat) : Loop :=
  { l with data := { l.data with preHandlers := mapErase l.data.preHandlers key } }

/-- Loop.addPostHandler: emplace the handler in postHandlers under key. -/
def Loop.addPostHandler (l : Loop) (key handler : Nat) : Loop :=
  { l with data := { l.data with postHandlers := mapEmplace l.data.postHandlers key handler } }

/-- Loop.removePostHandler: erase the postHandlers entry under key. -/
def Loop.removePostHandler (l : Loop) (key : Nat) : Loop :=
  { l with data := { l.data with postHandlers := mapErase l.data.postHandlers key } }

/-- Observable events of a pre-iteration or post-iteration phase: the
invocation of a registered handler (recorded with its key and handler
identifier), the cork diagnostic written to the standard error stream,
and abnormal process termination via std terminate. -/
inductive PhaseEvent : Type where
  | invoke : Nat → Nat → PhaseEvent
  | writeStderrDiagnostic : PhaseEvent
  | terminateProcess : PhaseEvent
deriving DecidableEq

/-- The pre-iteration callback of Loop.h: invoke every registered
pre-handler, in the iteration order of the map. -/
def preCb (ld : LoopData) : List PhaseEvent :=
  ld.preHandlers.map (fun p => PhaseEvent.invoke p.1 p.2)

/-- The post-iteration callback of Loop.h: invoke every registered
post-handler in map iteration order; afterwards, if corkedSocket is not
null, write the cork diagnostic to the standard error stream and call
std terminate. -/
def postCb (ld : LoopData) : List PhaseEvent :=
  ld.postHandlers.map (fun p => PhaseEvent.invoke p.1 p.2) ++
    match ld.corkedSocket with
    | some _ => [PhaseEvent.writeStderrDiagnostic, PhaseEvent.terminateProcess]
    | none => []

/-- The per-thread teardown sentinel of Loop.h: the function-local
thread-local LoopCleaner returned by getLazyLoop, with its field
initializers loop = nullptr and cleanMe = false. -/
structure LoopCleaner : Type where
  loop : Option Loop
  cleanMe : Bool

/-- The initial state of a fresh thread: the LoopCleaner as built by its
field initializers. -/
def LoopCleaner.init : LoopCleaner :=
  { loop := none, cleanMe := false }

/-- The LoopCleaner destructor, run at thread exit: when both the loop
field and the cleanMe flag are set it invokes free on the loop. The
result is the loop on which free is invoked, if any. -/
def LoopCleaner.atThreadExitFrees (s : LoopCleaner) : Option Loop :=
  match s.loop with
  | some l => if s.cleanMe then some l else none
  | none => none

/-- The result of Loop.get: the returned handle, the thread-local state
after the call, and whether this call created the Loop. -/
structure GetResult : Type where
  loop : Loop
  state : LoopCleaner
  createdNew : Bool

/-- Loop.get: when the thread-local slot is empty, create the Loop; with a
non-null existingNativeLoop the hint is adopted and no automatic free is
registered, otherwise a native loop is created and cleanMe is set. When
the slot already holds a Loop, return it unchanged. -/
def Loop.get (existingNativeLoop : Option Nat) (s : LoopCleaner) : GetResult :=
  match s.loop with
  | some l => { loop := l, state := s, createdNew := false }
  | none =>
    match existingNativeLoop with
    | some p =>
        let l := Loop.create (some p)
        { loop := l, state := { s with loop := some l }, createdNew := true }
    | none =>
        let l := Loop.create none
        { loop := l, state := { s with loop := some l, cleanMe := true }, createdNew := true }

/-- The teardown actions performed by Loop.free, in program order:
us_timer_close on the date timer, the in-place LoopData destructor call,
us_loop_free on the reactor loop, and the reset of the thread-local
lazyLoop slot. -/
inductive FreeEvent : Type where
  | closeDateTimer : FreeEvent
  | destructLoopData : FreeEvent
  | usLoopFree : FreeEvent
  | clearThreadLocalSlot : FreeEvent
deriving DecidableEq

/-- Loop.free: close the date timer, destruct LoopData in place, ask the
reactor to free the loop, and reset the thread-local slot to null. It
returns the thread-local state after the call together with the ordered
trace of the four teardown actions. Only the loop field of the sentinel
is written; cleanMe is left as it was. -/
def Loop.free (_l : Loop) (s : LoopCleaner) : LoopCleaner × List FreeEvent :=
  ({ s with loop := none }
  , [ FreeEvent.closeDateTimer
    , FreeEvent.destructLoopData
    , FreeEvent.usLoopFree
    , FreeEvent.clearThreadLocalSlot ])

/-- Loop.run: us_loop_run on this loop. -/
def Loop.run (l : Loop) : ReactorCall :=
  ReactorCall.usLoopRun l

/-- The free function uWS run, translated from the source: it calls
Loop.get on the calling thread and invokes run on the returned handle,
yielding the new thread-local state and the reactor call performed. -/
def uwsRun (s : LoopCleaner) : LoopCleaner × ReactorCall :=
  let r := Loop.get none s
  (r.state, Loop.run r.loop)

/-- The composition the spec describes for the free run function: call
Loop.get on the calling thread, then invoke run on the returned handle. -/
def getThenRun (s : LoopCleaner) : LoopCleaner × ReactorCall :=
  ((Loop.get none s).state, Loop.run (Loop.get none s).loop)

theorem mapEmplace_of_not_mem (m : List (Nat × Nat)) (k v : Nat)
    (h : k ∉ m.map Prod.fst) : mapEmplace m k v = m ++ [(k, v)] := by
  induction m with
  | nil => simp [mapEmplace]
  | cons p rest ih =>
    simp only [List.map_cons, List.mem_cons] at h
    push_neg at h
    simp [mapEmplace, Ne.symm h.1, ih h.2]

theorem filter_key_eq_nil (m : List (Nat × Nat)) (k : Nat)
    (h : k ∉ m.map Prod.fst) : m.filter (fun p => p.1 = k) = [] := by
  induction m with
  | nil => simp
  | cons p rest ih =>
    simp only [List.map_cons, List.mem_cons] at h
    push_neg at h
    simp [List.filter_cons, Ne.symm h.1, ih h.2]

theorem mapEmplace_keys_sub {m : List (Nat × Nat)} {k v x : Nat}
    (h : x ∈ (mapEmplace m k v).map Prod.fst) : x = k ∨ x ∈ m.map Prod.fst := by
  induction m with
  | nil =>
    simp [mapEmplace] at h
    simp [h]
  | cons p rest ih =>
    by_cases hp : p.1 = k
    · simp only [mapEmplace, hp, if_pos, List.map_cons, List.mem_cons] at h
      rcases h with h | h
      · exact Or.inl h
      · exact Or.inr (by simp [h])
    · simp only [mapEmplace, hp, ite_false, List.map_cons, List.mem_cons] at h
      rcases h with h | h
      · exact Or.inr (by simp [h])
      · rcases ih h with h1 | h1
        · exact Or.inl h1
        · exact Or.inr (by simp [h1])

theorem nodup_keys_mapEmplace (m : List (Nat × Nat)) (k v : Nat)
    (h : (m.map Prod.fst).Nodup) : ((mapEmplace m k v).map Prod.fst).Nodup := by
  induction m with
  | nil => simp [mapEmplace]
  | cons p rest ih =>
    simp only [List.map_cons, List.nodup_cons] at h
    by_cases hp : p.1 = k
    · simp only [mapEmplace, hp, if_pos, List.map_cons, List.nodup_cons]
      exact ⟨hp ▸ h.1, h.2⟩
    · simp only [mapEmplace, hp, if_neg, List.map_cons, List.nodup_cons, ite_false]
      refine ⟨?_, ih h.2⟩
      intro hmem
      rcases mapEmplace_keys_sub hmem with h1 | h1
      · exact hp h1
      · exact h.1 h1

theorem filter_mapEmplace (m : List (Nat × Nat)) (k v : Nat)
    (h : (m.map Prod.fst).Nodup) :
    (mapEmplace m k v).filter (fun p => p.1 = k) = [(k, v)] := by
  induction m with
  | nil => simp [mapEmplace]
  | cons p rest ih =>
    simp only [List.map_cons, List.nodup_cons] at h
    by_cases hp : p.1 = k
    · simp only [mapEmplace, hp, if_pos, List.filter_cons, decide_True, if_true]
      simp [filter_key_eq_nil rest k (hp ▸ h.1)]
    · simp only [mapEmplace, hp, ite_false]
      simp [List.filter_cons, hp, ih h.2]

theorem foldl_mapEmplace_append (ps acc : List (Nat × Nat))
    (h : ((acc ++ ps).map Prod.fst).Nodup) :
    ps.foldl (fun m p => mapEmplace m p.1 p.2) acc = acc ++ ps := by
  induction ps generalizing acc with
  | nil => simp
  | cons p rest ih =>
    have hk : p.1 ∉ acc.map Prod.fst := by
      simp only [List.map_append, List.nodup_append] at h
      intro hmem
      exact h.2.2 hmem (by simp)
    have h2 : (((acc ++ [p]) ++ rest).map Prod.fst).Nodup := by
      rw [List.append_assoc]
      simpa using h
    rw [List.foldl_cons, mapEmplace_of_not_mem acc p.1 p.2 hk]
    rw [ih (acc ++ [p]) h2]
    simp

theorem foldl_addPreHandler (ps : List (Nat × Nat)) (l : Loop) :
    ps.foldl (fun l p => Loop.addPreHandler l p.1 p.2) l
      = { l with data := { l.data with
            preHandlers := ps.foldl (fun m p => mapEmplace m p.1 p.2) l.data.preHandlers } } := by
  induction ps generalizing l with
  | nil => rfl
  | cons p rest ih =>
    rw [List.foldl_cons, ih]
    rfl

theorem foldl_addPostHandler (ps : List (Nat × Nat)) (l : Loop) :
    ps.foldl (fun l p => Loop.addPostHandler l p.1 p.2) l
      = { l with data := { l.data with
            postHandlers := ps.foldl (fun m p => mapEmplace m p.1 p.2) l.data.postHandlers } } := by
  induction ps generalizing l with
  | nil => rfl
  | cons p rest ih =>
    rw [List.foldl_cons, ih]
    rfl

/-- C1: every callback in a sequence submitted via defer (each defer also
signalling a reactor wakeup) is executed by the drain exactly once, the
drain bound to the wakeup callback dequeues and invokes callbacks in FIFO
order of the queue until the queue is empty, and the callbacks a draining
callback itself defers are pushed at the back of the same queue, hence
executed in the same drain. -/
theorem defer_drain_fifo_exactly_once (cs : List Cb) (i : Nat) (c : Cb) (rest : List Cb) :
    List.count i (wakeupCb (Loop.deferAll (Loop.create none) cs).data.deferQueue)
        = Cb.countIdList i cs
    ∧ (Loop.defer (Loop.create none) c).2 = ReactorCall.usWakeupLoop
    ∧ wakeupCb ([] : List Cb) = []
    ∧ wakeupCb (c :: rest) = Cb.id c :: wakeupCb (rest ++ Cb.defers c) := by
  refine ⟨?_, rfl, by rw [wakeupCb], wakeupCb_step c rest⟩
  rw [deferAll_queue]
  simp only [Loop.create, LoopData.default, List.nil_append]
  exact count_wakeupCb i cs

/-- C2: in every post-iteration phase the registered post-handlers are all
invoked first, in map order; afterwards, exactly when corkedSocket is not
null, the diagnostic is written to the standard error stream and the
process terminates abnormally, and when corkedSocket is null the phase
completes with no diagnostic and no termination. -/
theorem postCb_handlers_then_cork_check (ld : LoopData) :
    List.take ld.postHandlers.length (postCb ld)
        = ld.postHandlers.map (fun p => PhaseEvent.invoke p.1 p.2)
    ∧ (ld.corkedSocket ≠ none →
        postCb ld = ld.postHandlers.map (fun p => PhaseEvent.invoke p.1 p.2)
          ++ [PhaseEvent.writeStderrDiagnostic, PhaseEvent.terminateProcess])
    ∧ (ld.corkedSocket = none →
        postCb ld = ld.postHandlers.map (fun p => PhaseEvent.invoke p.1 p.2)
        ∧ PhaseEvent.writeStderrDiagnostic ∉ postCb ld
        ∧ PhaseEvent.terminateProcess ∉ postCb ld) := by
  cases hc : ld.corkedSocket with
  | none =>
    refine ⟨by simp [postCb, hc], by simp [hc],
      fun _ => ⟨by simp [postCb, hc], by simp [postCb, hc], by simp [postCb, hc]⟩⟩
  | some sock =>
    refine ⟨?_, fun _ => by simp [postCb, hc], by simp [hc]⟩
    have hlen : ld.postHandlers.length
        = (ld.postHandlers.map (fun p => PhaseEvent.invoke p.1 p.2)).length := by simp
    rw [postCb, hc, hlen]
    exact List.take_left _ _

/-- Witness for the C2 theorem at a concrete LoopData whose corkedSocket is
set and which has one registered post-handler. -/
theorem postCb_handlers_then_cork_check_witness :
    (LoopData.mk [] [] [(1, 5)] (some 0) true false).corkedSocket ≠ none
    ∧ postCb (LoopData.mk [] [] [(1, 5)] (some 0) true false)
        = (LoopData.mk [] [] [(1, 5)] (some 0) true false).postHandlers.map
            (fun p => PhaseEvent.invoke p.1 p.2)
          ++ [PhaseEvent.writeStderrDiagnostic, PhaseEvent.terminateProcess] :=
  ⟨by simp, (postCb_handlers_then_cork_check _).2.1 (by simp)⟩

theorem filter_invoke_key (m : List (Nat × Nat)) (k : Nat) :
    (m.map (fun p => PhaseEvent.invoke p.1 p.2)).filter
        (fun e => match e with | PhaseEvent.invoke k2 _ => k2 = k | _ => false)
      = (m.filter (fun p => p.1 = k)).map (fun p => PhaseEvent.invoke p.1 p.2) := by
  induction m with
  | nil => simp
  | cons p rest ih =>
    by_cases hp : p.1 = k <;> simp [List.filter_cons, hp, ih]

theorem filter_invoke_key_no_diag (k : Nat) (es : List PhaseEvent)
    (h : ∀ e ∈ es, e = PhaseEvent.writeStderrDiagnostic ∨ e = PhaseEvent.terminateProcess) :
    es.filter (fun e => match e with | PhaseEvent.invoke k2 _ => k2 = k | _ => false) = [] := by
  induction es with
  | nil => simp
  | cons e rest ih =>
    rcases h e (by simp) with he | he <;>
      simp [List.filter_cons, he, ih fun x hx => h x (by simp [hx])]

/-- C3: on a single thread, any call to get made after a first call
returns the same Loop handle as the first call, leaves the thread-local
state unchanged, and creates no Loop, whatever its existingNativeLoop
argument; the Loop is created only by the first call on the thread while
the slot is empty (free resets the slot). -/
theorem get_returns_same_handle (s : LoopCleaner) (a b : Option Nat) :
    (Loop.get b (Loop.get a s).state).loop = (Loop.get a s).loop
    ∧ (Loop.get b (Loop.get a s).state).state = (Loop.get a s).state
    ∧ (Loop.get b (Loop.get a s).state).createdNew = false
    ∧ (s.loop = none → (Loop.get a s).createdNew = true) := by
  have hstate : (Loop.get a s).state.loop = some (Loop.get a s).loop := by
    cases hs : s.loop with
    | some l => simp [Loop.get, hs]
    | none => cases a <;> simp [Loop.get, hs]
  have h2 : Loop.get b (Loop.get a s).state
      = { loop := (Loop.get a s).loop, state := (Loop.get a s).state, createdNew := false } := by
    rw [Loop.get.eq_def, hstate]
  refine ⟨by rw [h2], by rw [h2], by rw [h2], fun hnone => ?_⟩
  cases b2 : a <;> simp [Loop.get, hnone, b2]

/-- Witness for the C3 theorem on a fresh thread: the first call creates
the Loop, a second call with a different argument returns the same
handle. -/
theorem get_returns_same_handle_witness :
    LoopCleaner.init.loop = none
    ∧ (Loop.get none LoopCleaner.init).createdNew = true
    ∧ (Loop.get (some 5) (Loop.get none LoopCleaner.init).state).loop
        = (Loop.get none LoopCleaner.init).loop :=
  ⟨rfl, (get_returns_same_handle LoopCleaner.init none (some 5)).2.2.2 rfl,
    (get_returns_same_handle LoopCleaner.init none (some 5)).1⟩

/-- C4 as stated is refuted at a concrete input: on a thread that first
created a native loop with get, explicitly freed it, and then obtained an
adopted loop via get with the non-null argument 7, the thread-exit
sentinel does invoke free on that adopted loop, because free left the
cleanMe flag set. -/
theorem adopted_loop_freed_at_exit_cex :
    (Loop.get (some 7) (Loop.free (Loop.get none LoopCleaner.init).loop
        (Loop.get none LoopCleaner.init).state).1).loop.nativeHint = some 7
    ∧ LoopCleaner.atThreadExitFrees
        (Loop.get (some 7) (Loop.free (Loop.get none LoopCleaner.init).loop
            (Loop.get none LoopCleaner.init).state).1).state
      = some (Loop.get (some 7) (Loop.free (Loop.get none LoopCleaner.init).loop
            (Loop.get none LoopCleaner.init).state).1).loop :=
  ⟨rfl, rfl⟩

/-- C4 amended: on a thread whose cleaner has no loop and whose cleanMe
flag is false (in particular any thread that never created a native
loop), a Loop created by get with a non-null argument is not freed by the
thread-exit sentinel, whereas a Loop created by get with a null argument
has free invoked on it by the sentinel at thread exit. -/
theorem adoption_vs_ownership (s : LoopCleaner) (p : Nat)
    (hloop : s.loop = none) (hclean : s.cleanMe = false) :
    LoopCleaner.atThreadExitFrees (Loop.get (some p) s).state = none
    ∧ LoopCleaner.atThreadExitFrees (Loop.get none s).state
        = some (Loop.get none s).loop := by
  simp [Loop.get, hloop, LoopCleaner.atThreadExitFrees, hclean]

/-- Witness for the amended C4 theorem on a fresh thread and native
pointer 7. -/
theorem adoption_vs_ownership_witness :
    LoopCleaner.init.loop = none ∧ LoopCleaner.init.cleanMe = false
    ∧ LoopCleaner.atThreadExitFrees (Loop.get (some 7) LoopCleaner.init).state = none
    ∧ LoopCleaner.atThreadExitFrees (Loop.get none LoopCleaner.init).state
        = some (Loop.get none LoopCleaner.init).loop :=
  ⟨rfl, rfl, (adoption_vs_ownership LoopCleaner.init 7 rfl rfl).1,
    (adoption_vs_ownership LoopCleaner.init 7 rfl rfl).2⟩

/-- C5: on a Loop whose handler maps have unique keys, registering a
under key k and then b under the same key leaves exactly one pre-handler
entry under k, holding b, and the pre-handler phase of a subsequent
iteration invokes b, not a, for key k; symmetrically for post-handlers. -/
theorem handler_replacement (l : Loop) (k a b : Nat)
    (hpre : (l.data.preHandlers.map Prod.fst).Nodup)
    (hpost : (l.data.postHandlers.map Prod.fst).Nodup) :
    ((l.addPreHandler k a).addPreHandler k b).data.preHandlers.filter
        (fun p => p.1 = k) = [(k, b)]
    ∧ (preCb ((l.addPreHandler k a).addPreHandler k b).data).filter
        (fun e => match e with | PhaseEvent.invoke k2 _ => k2 = k | _ => false)
        = [PhaseEvent.invoke k b]
    ∧ ((l.addPostHandler k a).addPostHandler k b).data.postHandlers.filter
        (fun p => p.1 = k) = [(k, b)]
    ∧ (postCb ((l.addPostHandler k a).addPostHandler k b).data).filter
        (fun e => match e with | PhaseEvent.invoke k2 _ => k2 = k | _ => false)
        = [PhaseEvent.invoke k b] := by
  have hpre2 := filter_mapEmplace (mapEmplace l.data.preHandlers k a) k b
      (nodup_keys_mapEmplace _ k a hpre)
  have hpost2 := filter_mapEmplace (mapEmplace l.data.postHandlers k a) k b
      (nodup_keys_mapEmplace _ k a hpost)
  refine ⟨hpre2, ?_, hpost2, ?_⟩
  · rw [show (preCb ((l.addPreHandler k a).addPreHandler k b).data)
        = (mapEmplace (mapEmplace l.data.preHandlers k a) k b).map
            (fun p => PhaseEvent.invoke p.1 p.2) from rfl]
    rw [filter_invoke_key, hpre2]
    rfl
  · rw [show (postCb ((l.addPostHandler k a).addPostHandler k b).data)
        = (mapEmplace (mapEmplace l.data.postHandlers k a) k b).map
            (fun p => PhaseEvent.invoke p.1 p.2)
          ++ (match l.data.corkedSocket with
              | some _ => [PhaseEvent.writeStderrDiagnostic, PhaseEvent.terminateProcess]
              | none => []) from rfl]
    rw [List.filter_append, filter_invoke_key, hpost2]
    have hdiag : (match l.data.corkedSocket with
        | some _ => [PhaseEvent.writeStderrDiagnostic, PhaseEvent.terminateProcess]
        | none => ([] : List PhaseEvent)).filter
          (fun e => match e with | PhaseEvent.invoke k2 _ => k2 = k | _ => false) = [] := by
      cases l.data.corkedSocket <;> simp
    rw [hdiag]
    rfl

/-- Witness for the C5 theorem on a freshly created Loop, key 3, handlers
10 then 20. -/
theorem handler_replacement_witness :
    ((Loop.create none).data.preHandlers.map Prod.fst).Nodup
    ∧ ((Loop.create none).data.postHandlers.map Prod.fst).Nodup
    ∧ (((Loop.create none).addPreHandler 3 10).addPreHandler 3 20).data.preHandlers.filter
        (fun p => p.1 = 3) = [(3, 20)]
    ∧ (preCb (((Loop.create none).addPreHandler 3 10).addPreHandler 3 20).data).filter
        (fun e => match e with | PhaseEvent.invoke k2 _ => k2 = 3 | _ => false)
        = [PhaseEvent.invoke 3 20] :=
  ⟨by decide, by decide,
    (handler_replacement (Loop.create none) 3 10 20 (by decide) (by decide)).1,
    (handler_replacement (Loop.create none) 3 10 20 (by decide) (by decide)).2.1⟩

/-- C6: pre-handlers registered under pairwise distinct keys in a given
order are invoked by the pre-handler phase in exactly that insertion
order, and symmetrically the post-handler phase invokes post-handlers in
their insertion order. -/
theorem handler_insertion_order (ps : List (Nat × Nat))
    (h : (ps.map Prod.fst).Nodup) :
    preCb (ps.foldl (fun l p => Loop.addPreHandler l p.1 p.2) (Loop.create none)).data
        = ps.map (fun p => PhaseEvent.invoke p.1 p.2)
    ∧ postCb (ps.foldl (fun l p => Loop.addPostHandler l p.1 p.2) (Loop.create none)).data
        = ps.map (fun p => PhaseEvent.invoke p.1 p.2) := by
  have hfold := foldl_mapEmplace_append ps [] (by simpa using h)
  constructor
  · rw [foldl_addPreHandler]
    simp only [preCb, Loop.create, LoopData.default]
    rw [hfold]
    simp
  · rw [foldl_addPostHandler]
    simp only [postCb, Loop.create, LoopData.default]
    rw [hfold]
    simp

/-- Witness for the C6 theorem with three distinct keys. -/
theorem handler_insertion_order_witness :
    (([(1, 10), (2, 20), (3, 30)] : List (Nat × Nat)).map Prod.fst).Nodup
    ∧ preCb (([(1, 10), (2, 20), (3, 30)] : List (Nat × Nat)).foldl
        (fun l p => Loop.addPreHandler l p.1 p.2) (Loop.create none)).data
      = ([(1, 10), (2, 20), (3, 30)] : List (Nat × Nat)).map
          (fun p => PhaseEvent.invoke p.1 p.2) :=
  ⟨by decide, (handler_insertion_order [(1, 10), (2, 20), (3, 30)] (by decide)).1⟩

/-- C7: free performs, in this order, the close of the date timer, the
in-place destruction of LoopData, the reactor call freeing the loop, and
the clearing of the thread-local slot; in particular the date timer is
closed strictly before LoopData is destructed, and afterwards the
thread-local slot holds no loop. -/
theorem free_teardown_order (l : Loop) (s : LoopCleaner) :
    (Loop.free l s).2 = [FreeEvent.closeDateTimer, FreeEvent.destructLoopData,
        FreeEvent.usLoopFree, FreeEvent.clearThreadLocalSlot]
    ∧ List.indexOf FreeEvent.closeDateTimer (Loop.free l s).2
        < List.indexOf FreeEvent.destructLoopData (Loop.free l s).2
    ∧ (Loop.free l s).1.loop = none := by
  refine ⟨rfl, ?_, rfl⟩
  show List.indexOf FreeEvent.closeDateTimer [FreeEvent.closeDateTimer,
      FreeEvent.destructLoopData, FreeEvent.usLoopFree, FreeEvent.clearThreadLocalSlot]
    < List.indexOf FreeEvent.destructLoopData [FreeEvent.closeDateTimer,
      FreeEvent.destructLoopData, FreeEvent.usLoopFree, FreeEvent.clearThreadLocalSlot]
  decide

/-- C8: free nulls the loop field of the thread-local cleaner and leaves
its cleanMe flag unchanged; consequently, on a thread that created a
native loop, explicitly freed it, and then obtained an adopted loop from
get with a non-null argument, the sentinel destructor invokes free on the
adopted loop at thread exit. -/
theorem free_preserves_cleanMe (l : Loop) (s : LoopCleaner) (p : Nat) :
    (Loop.free l s).1.loop = none
    ∧ (Loop.free l s).1.cleanMe = s.cleanMe
    ∧ LoopCleaner.atThreadExitFrees
        (Loop.get (some p) (Loop.free (Loop.get none LoopCleaner.init).loop
            (Loop.get none LoopCleaner.init).state).1).state
      = some (Loop.get (some p) (Loop.free (Loop.get none LoopCleaner.init).loop
            (Loop.get none LoopCleaner.init).state).1).loop :=
  ⟨rfl, rfl, rfl⟩

/-- C9: removePreHandler and removePostHandler are idempotent: removing
key k twice leaves the registries as removing it once does, and removing
a key that is not registered leaves the Loop unchanged. -/
theorem remove_handler_idempotent (l : Loop) (k : Nat) :
    (l.removePreHandler k).removePreHandler k = l.removePreHandler k
    ∧ (l.removePostHandler k).removePostHandler k = l.removePostHandler k
    ∧ (k ∉ l.data.preHandlers.map Prod.fst → l.removePreHandler k = l)
    ∧ (k ∉ l.data.postHandlers.map Prod.fst → l.removePostHandler k = l) := by
  obtain ⟨hint, dq, pre, post, cork, dt, nm⟩ := l
  refine ⟨?_, ?_, fun hmem => ?_, fun hmem => ?_⟩
  · simp [Loop.removePreHandler, mapErase, List.filter_filter]
  · simp [Loop.removePostHandler, mapErase, List.filter_filter]
  · simp only [Loop.removePreHandler, mapErase, ne_eq] at hmem ⊢
    simp
    intro x y hxy hxk
    exact hmem (List.mem_map.mpr ⟨(x, y), hxy, hxk⟩)
  · simp only [Loop.removePostHandler, mapErase, ne_eq] at hmem ⊢
    simp
    intro x y hxy hxk
    exact hmem (List.mem_map.mpr ⟨(x, y), hxy, hxk⟩)

/-- Witness for the C9 theorem on a Loop with one pre-handler under key 1
and the unregistered key 2. -/
theorem remove_handler_idempotent_witness :
    (2 ∉ ((Loop.create none).addPreHandler 1 10).data.preHandlers.map Prod.fst
      ∧ ((Loop.create none).addPreHandler 1 10).removePreHandler 2
          = (Loop.create none).addPreHandler 1 10)
    ∧ (2 ∉ ((Loop.create none).addPreHandler 1 10).data.postHandlers.map Prod.fst
      ∧ ((Loop.create none).addPreHandler 1 10).removePostHandler 2
          = (Loop.create none).addPreHandler 1 10) :=
  ⟨⟨by decide, (remove_handler_idempotent ((Loop.create none).addPreHandler 1 10) 2).2.2.1
      (by decide)⟩,
   ⟨by decide, (remove_handler_idempotent ((Loop.create none).addPreHandler 1 10) 2).2.2.2
      (by decide)⟩⟩

/-- C10: the free function run of the uWS namespace is equivalent to
calling Loop.get on the calling thread and invoking run on the returned
handle: for every thread-local state both produce the same state change
and the same reactor call, namely us_loop_run on the thread's Loop. -/
theorem run_free_function_equiv (s : LoopCleaner) :
    uwsRun s = getThenRun s
    ∧ (uwsRun s).2 = ReactorCall.usLoopRun (Loop.get none s).loop :=
  ⟨rfl, rfl⟩

end uWS
